import Mathlib

/-!
Shallow embedding of the amazon-ynab-sync core (TypeScript) in Lean 4.

Embedded source files:
  * mail.ts  — email provenance filter `isAmazonEmail` and the extractor
    `scanEmail` (cheerio document scraping for the order total and items);
  * ynab.ts  — the transaction cache (`fetchTransactions`), the reconciler
    (`matchTransactions`) and the ledger-update preparation
    (`updateTransactions`).

Modelling conventions:
  * JavaScript numbers are IEEE-754 binary64 values; they are modelled
    exactly as integer fractions (`Frac`) together with a correct-rounding
    function `roundD` (round to nearest, ties to even, 53-bit significand)
    applied after each arithmetic operation that can round, plus a NaN
    element (`JsNum := Option Frac`, `none` = NaN).  The rounding model
    was cross-checked against real binary64 results.  Overflow to
    infinity and subnormal underflow are outside the value ranges
    exercised here and are not modelled (`roundD` is the identity
    outside 2^±200).
  * A loaded cheerio document is modelled structurally (`Doc`): tables
    with their id attribute, flattened text, td-cell texts and
    `<font>`-bearing rows, and anchors with href and text.  The
    quoted-`x_` attribute rewrite performed on the raw body before
    `cheerio.load` is modelled as stripping an `x_` prefix from attribute
    values.
  * Dates are integer millisecond timestamps; `Date.setHours(0,0,0,0)` is
    modelled as flooring to a multiple of 86400000.
  * The JS string-keyed `Record` transaction cache is modelled as an
    association list in insertion order (assignment to an existing key
    overwrites in place; assignment to a fresh key appends; `delete`
    removes), matching `Object.entries` iteration order for UUID keys.
-/

namespace AmazonSync

/-! ## String helpers (JS semantics, written over `List Char`) -/

/-- Substring containment, the model of JS `String.prototype.includes`. -/
def subListOf (needle : List Char) : List Char → Bool
  | [] => needle.isEmpty
  | c :: cs => needle.isPrefixOf (c :: cs) || subListOf needle cs

def strContains (hay needle : String) : Bool :=
  subListOf needle.data hay.data

def myStartsWith (s p : String) : Bool := p.data.isPrefixOf s.data

def myEndsWith (s p : String) : Bool := p.data.isSuffixOf s.data

def isSpaceChar (c : Char) : Bool :=
  c = ' ' || c = '\t' || c = '\n' || c = '\r'

/-- Model of JS `String.prototype.trim`. -/
def trimCL (s : String) : String :=
  ⟨((s.data.dropWhile isSpaceChar).reverse.dropWhile isSpaceChar).reverse⟩

def toLowerCL (s : String) : String := ⟨s.data.map Char.toLower⟩

/-- Model of JS `split(" ")` (single-space separator, empty pieces kept). -/
def splitSpaceAux (acc : List Char) : List Char → List String
  | [] => [⟨acc.reverse⟩]
  | c :: cs =>
    if c = ' ' then ⟨acc.reverse⟩ :: splitSpaceAux [] cs
    else splitSpaceAux (c :: acc) cs

def splitSpace (s : String) : List String := splitSpaceAux [] s.data

/-! ## Exact model of IEEE-754 binary64 arithmetic

Values are unnormalized fractions of integers (denominator positive by
construction), so that every operation is plain integer arithmetic and
reduces in the kernel; value comparisons are by cross-multiplication. -/

/-- An exact finite numeric value: the fraction `num / den` (all
constructions keep `den` positive). -/
structure Frac where
  num : ℤ
  den : ℤ
deriving DecidableEq, Repr

def intF (n : ℤ) : Frac := ⟨n, 1⟩

def fmul (a b : Frac) : Frac := ⟨a.num * b.num, a.den * b.den⟩

def fsub (a b : Frac) : Frac := ⟨a.num * b.den - b.num * a.den, a.den * b.den⟩

def fneg (a : Frac) : Frac := ⟨-a.num, a.den⟩

def fabs (a : Frac) : Frac := ⟨|a.num|, a.den⟩

/-- Value order on fractions with positive denominators. -/
def flt (a b : Frac) : Bool := a.num * b.den < b.num * a.den

def fle (a b : Frac) : Bool := a.num * b.den ≤ b.num * a.den

/-- Value equality on fractions with positive denominators. -/
def feq (a b : Frac) : Bool := a.num * b.den = b.num * a.den

/-- Whether the fraction is an exact integer. -/
def fIsInt (a : Frac) : Bool := a.num % a.den = 0

/-- Power of two as a fraction, for integer exponents. -/
def pow2F (e : ℤ) : Frac :=
  if 0 ≤ e then ⟨2 ^ e.toNat, 1⟩ else ⟨1, 2 ^ (-e).toNat⟩

/-- Binary exponent of a positive fraction: the `e` with `2^e ≤ q < 2^(e+1)`,
found by bounded search in `[-200, 200]`. -/
def expOf (q : Frac) : Option ℤ :=
  (List.range 401).findSome? fun k =>
    let e : ℤ := (k : ℤ) - 200
    if fle (pow2F e) q && flt q (pow2F (e + 1)) then some e else none

/-- Round a positive fraction to the nearest 53-bit-significand dyadic
(ties to even); identity outside the searched exponent range. -/
def roundPos (q : Frac) : Frac :=
  match expOf q with
  | none => q
  | some e =>
    let s : Frac := fmul q (pow2F (52 - e))
    let fl : ℤ := s.num / s.den
    let rem2 : ℤ := 2 * (s.num % s.den)
    let m : ℤ :=
      if rem2 < s.den then fl
      else if rem2 > s.den then fl + 1
      else if fl % 2 = 0 then fl else fl + 1
    fmul (intF m) (pow2F (e - 52))

/-- Correct rounding of an exact value to the nearest binary64 value. -/
def roundD (q : Frac) : Frac :=
  if q.num = 0 then intF 0 else if q.num < 0 then fneg (roundPos (fneg q)) else roundPos q

/-- A JavaScript number: a binary64 value (as an exact fraction) or NaN. -/
abbrev JsNum : Type := Option Frac

def jsOfInt (n : ℤ) : JsNum := some (intF n)

def jsZero : JsNum := some (intF 0)

/-- NaN, the result of failed numeric parsing. -/
def jsNaN : JsNum := none

def jsMul (a b : JsNum) : JsNum :=
  match a, b with
  | some x, some y => some (roundD (fmul x y))
  | _, _ => none

def jsSub (a b : JsNum) : JsNum :=
  match a, b with
  | some x, some y => some (roundD (fsub x y))
  | _, _ => none

def jsNeg (a : JsNum) : JsNum := a.map fneg

def jsAbs (a : JsNum) : JsNum := a.map fabs

/-- JS `<` (false whenever either side is NaN). -/
def jsLt (a b : JsNum) : Bool :=
  match a, b with
  | some x, some y => flt x y
  | _, _ => false

/-- JS `<=` (false whenever either side is NaN). -/
def jsLe (a b : JsNum) : Bool :=
  match a, b with
  | some x, some y => fle x y
  | _, _ => false

/-- JS strict equality on numbers (false whenever either side is NaN). -/
def jsEq (a b : JsNum) : Bool :=
  match a, b with
  | some x, some y => feq x y
  | _, _ => false

/-- Whether a JS number is an exact integer value. -/
def jsIsInt (a : JsNum) : Bool :=
  match a with
  | some x => fIsInt x
  | none => false

/-- Whether a JS number equals the given exact integer. -/
def jsEqInt (a : JsNum) (n : ℤ) : Bool :=
  match a with
  | some x => feq x (intF n)
  | none => false

/-! ## Numeric string parsing (JS `parseFloat` and the dollar regex) -/

def digitVal (c : Char) : ℕ := c.toNat - 48

/-- Consume a run of decimal digits, extending the accumulated value. -/
def readDigits (acc : ℕ) : List Char → ℕ × List Char
  | [] => (acc, [])
  | c :: cs =>
    if c.isDigit then readDigits (acc * 10 + digitVal c) cs else (acc, c :: cs)

/-- Consume a run of decimal digits, also counting them. -/
def readDigitsCount (acc : ℕ) (count : ℕ) : List Char → ℕ × ℕ × List Char
  | [] => (acc, count, [])
  | c :: cs =>
    if c.isDigit then readDigitsCount (acc * 10 + digitVal c) (count + 1) cs
    else (acc, count, c :: cs)

/-- Attempt of the regex `\$(\d+\.\d{2})` at a position just after `$`:
one or more digits, a dot, and two digits; on success, the captured
amount is returned as the exact fraction `digits + centsPair / 100`. -/
def dollarMatchAt : List Char → Option Frac
  | [] => none
  | c :: cs =>
    if c.isDigit then
      let (n, rest) := readDigits (digitVal c) cs
      match rest with
      | '.' :: d1 :: d2 :: _ =>
        if d1.isDigit && d2.isDigit then
          some ⟨(n : ℤ) * 100 + (digitVal d1 * 10 + digitVal d2 : ℕ), 100⟩
        else none
      | _ => none
    else none

/-- First match of `\$(\d+\.\d{2})` in the text, as an exact fraction. -/
def dollarMatch : List Char → Option Frac
  | [] => none
  | c :: cs =>
    if c = '$' then
      match dollarMatchAt cs with
      | some q => some q
      | none => dollarMatch cs
    else dollarMatch cs

/-- Model of JS `parseFloat` on the strings arising here: an optional
integer part, an optional dot and fraction digits; NaN (`none`) when no
digit is present.  (Signs and exponents do not occur in the scraped
cost strings and are not modelled.) -/
def parseJsFloat (cs : List Char) : JsNum :=
  let (ipart, icount, rest) := readDigitsCount 0 0 cs
  let (fnum, fcount, _) : ℕ × ℕ × List Char :=
    match rest with
    | '.' :: rest2 => readDigitsCount 0 0 rest2
    | _ => (0, 0, rest)
  if icount + fcount = 0 then none
  else some (roundD ⟨(ipart : ℤ) * 10 ^ fcount + (fnum : ℤ), (10 : ℤ) ^ fcount⟩)

/-! ## The document model (a loaded cheerio document) -/

/-- A table element: its `id` attribute, its flattened text, the
concatenated texts of its `td` cells, and its rows (each contributing
the flattened text of its `font` descendants). -/
structure TableEl where
  idAttr : String
  text : String
  tdTexts : List String
  rows : List String
deriving DecidableEq, Repr

/-- An anchor element: its `href` attribute and its flattened text. -/
structure Anchor where
  href : String
  text : String
deriving DecidableEq, Repr

/-- A parsed HTML document, by the element queries the extractor uses. -/
structure Doc where
  tables : List TableEl
  anchors : List Anchor
deriving DecidableEq, Repr

/-- IMAP message attributes; the `date` really can be absent at runtime
even though the TypeScript type says otherwise. -/
structure ImapAttrs where
  date : Option ℤ
deriving DecidableEq, Repr

/-- An email as assembled by `readEmail` in mail.ts; `fromAddr` is the
`from` header (renamed: `from` is a Lean keyword). -/
structure Email where
  fromAddr : String
  subject : String
  body : Doc
  attributes : ImapAttrs
deriving DecidableEq, Repr

/-- A purchase record (`Order` in ynab.ts): midnight date (ms), signed
amount in milliunits as a JS number, and item descriptions. -/
structure Order where
  date : ℤ
  amount : JsNum
  items : List String
deriving DecidableEq, Repr

/-! ## The extractor (`scanEmail` in mail.ts) -/

/-- Provenance filter (mail.ts line 25): a substring check of the
sender header against the order-confirmation address. -/
def isAmazonEmail (email : Email) : Bool :=
  strContains email.fromAddr "auto-confirm@amazon.com"

/-- Strip the forwarding artifact prefix from an attribute value; the
model of the `body.replace(/"x_/g, char 34)` rewrite done before
`cheerio.load` (mail.ts line 40). -/
def stripX (s : String) : String :=
  if myStartsWith s "x_" then ⟨s.data.drop 2⟩ else s

/-- Model of loading the body after the attribute rewrite. -/
def loadDoc (d : Doc) : Doc :=
  ⟨d.tables.map (fun t => { t with idAttr := stripX t.idAttr }),
   d.anchors.map (fun a => { a with href := stripX a.href })⟩

/-- Amount method 1 (mail.ts lines 47-58): first table whose flattened
text contains "Total" and yields a dollar-pattern match; the callback
breaks out of the `each` loop only when a match is found. -/
def findAmount1 : List TableEl → JsNum
  | [] => jsZero
  | tb :: rest =>
    if strContains tb.text "Total" then
      match dollarMatch tb.text.data with
      | some q => some (roundD q)
      | none => findAmount1 rest
    else findAmount1 rest

/-- Amount method 2 (mail.ts lines 61-66): the legacy
`table[id$="costBreakdownRight"] td` selector; its concatenated cell
text, trimmed, must start with `$`. -/
def findAmount2 (tables : List TableEl) : JsNum :=
  let costText :=
    trimCL (String.join ((tables.filter
      (fun t => myEndsWith t.idAttr "costBreakdownRight")).flatMap (·.tdTexts)))
  if costText.data ≠ [] && myStartsWith costText "$" then
    parseJsFloat (costText.data.drop 1)
  else jsZero

/-- The total amount as computed by the layered strategy: method 1,
then method 2 when the value is still `0` (mail.ts lines 44-66). -/
def computeAmount (doc : Doc) : JsNum :=
  let a1 := findAmount1 doc.tables
  if jsEq a1 jsZero then findAmount2 doc.tables else a1

def excludeList : List String :=
  ["View or edit order", "Your Orders", "Your Account", "Buy Again", "Track package"]

/-- Truncation-noise normalization applied to titles ending in an
ellipsis (mail.ts lines 95-99 and 110-114). -/
def normTitle (t : String) : String :=
  if myEndsWith t "..." then
    let t1 := String.intercalate " " ((splitSpace t).dropLast)
    let t2 := if myEndsWith t1 "," then (⟨t1.data.dropLast⟩ : String) else t1
    t2 ++ ".."
  else t

/-- Item method 1 (mail.ts lines 73-103): anchors whose href indicates a
product reference, with nonempty short text not matching boilerplate. -/
def findItems1 (anchors : List Anchor) : List String :=
  anchors.foldl
    (fun items a =>
      let text := trimCL a.text
      if (strContains a.href "/dp/" || strContains a.href "asin") &&
          text.data.length > 0 && text.data.length < 200 then
        if excludeList.any (fun p => strContains text p) then items
        else items ++ [normTitle text]
      else items)
    []

/-- Item method 2 (mail.ts lines 106-118): rows of the legacy
`table[id$="itemDetails"]` selector, using each row font text. -/
def findItems2 (tables : List TableEl) : List String :=
  ((tables.filter (fun t => myEndsWith t.idAttr "itemDetails")).flatMap (·.rows)).foldl
    (fun items r =>
      let title := normTitle (trimCL r)
      if title.data.length = 0 then items else items ++ [title])
    []

/-- Midnight of the calendar day, the model of
`new Date(attributes.date.setHours(0,0,0,0))` (mail.ts line 122). -/
def midnight (ms : ℤ) : ℤ := ms - ms % 86400000

/-- The try-block of `scanEmail` (mail.ts lines 42-134): amount, items,
then the date; accessing an absent `attributes.date` raises, which the
caller catches. -/
def scanEmailBody (doc : Doc) (attrs : ImapAttrs) : Except String (Option Order) := do
  let amount := computeAmount doc
  if jsEq amount jsZero then return none
  let items := findItems1 doc.anchors
  let items := if items.isEmpty then findItems2 doc.tables else items
  if items.isEmpty then return none
  match attrs.date with
  | none => Except.error "TypeError: attributes.date is undefined"
  | some ms =>
    return some { date := midnight ms
                  amount := jsNeg (jsMul amount (jsOfInt 1000))
                  items := items }

/-- Full `scanEmail` (mail.ts lines 28-139): provenance filter, document
load, and the try/catch that folds parse failures into a skip while
logging the subject line.  Returns the extraction outcome together with
the diagnostic log lines it emits. -/
def scanEmailRun (email : Email) : Option Order × List String :=
  if !isAmazonEmail email then
    (none, ["Ignoring... not an Amazon order email (subject or body mismatch)"])
  else
    match scanEmailBody (loadDoc email.body) email.attributes with
    | Except.ok r => (r, [])
    | Except.error e => (none, [e, "This failed on email with subject: " ++ email.subject])

/-- The extraction outcome alone: `Order | undefined`. -/
def scanEmail (email : Email) : Option Order := (scanEmailRun email).1

/-! ## The ledger model (ynab.ts) -/

/-- A YNAB transaction as cached locally.  `date` is the calendar-day
timestamp in ms (the model of `new Date(t.date).getTime()` on the wire
date string); `amount` is in integer milliunits as delivered by the
API; `memo` and `payee` are nullable. -/
structure Transaction where
  id : String
  date : ℤ
  amount : ℤ
  payee : Option String
  memo : Option String
  deleted : Bool
deriving DecidableEq, Repr

/-- The local transaction cache: a string-keyed JS record in insertion
order. -/
abbrev Cache : Type := List Transaction

/-- Assignment `this.transactions[t.id] = t`: overwrite in place when
the key exists, append otherwise. -/
def cacheInsert (c : Cache) (t : Transaction) : Cache :=
  if c.any (fun u => u.id = t.id) then
    c.map (fun u => if u.id = t.id then t else u)
  else c ++ [t]

/-- Statement `delete this.transactions[t.id]`. -/
def cacheDelete (c : Cache) (id : String) : Cache :=
  c.filter (fun u => u.id ≠ id)

/-- The sync filter (ynab.ts lines 111-115): payee contains "amazon"
case-insensitively and the memo is absent or empty. -/
def syncFilter (t : Transaction) : Bool :=
  (match t.payee with
   | some p => strContains (toLowerCL p) "amazon"
   | none => false) &&
  (match t.memo with
   | some m => m.data.length = 0
   | none => true)

/-- One iteration of the sync `forEach` (ynab.ts lines 116-125). -/
def fetchStep (c : Cache) (t : Transaction) : Cache :=
  if t.deleted && c.any (fun u => u.id = t.id) then cacheDelete c t.id
  else cacheInsert c t

/-- The cache part of `fetchTransactions` (ynab.ts lines 109-125),
taking the already-fetched server response page as input (the HTTP
exchange and server-knowledge cursor are transport, not modelled). -/
def fetchTransactions (cache : Cache) (response : List Transaction) : Cache :=
  (response.filter syncFilter).foldl fetchStep cache

/-- A match candidate (`Match` in ynab.ts). -/
structure MatchCand where
  dateDifference : ℤ
  priceDifference : JsNum
  orderIndex : ℕ
  transactionId : String
deriving DecidableEq, Repr

/-- An accepted pairing (`FinalMatch` in ynab.ts). -/
structure FinalMatch where
  transactionId : String
  order : Order
deriving DecidableEq, Repr

/-- The idempotence-marker test (ynab.ts line 137):
`transaction.memo && transaction.memo.length > 0`. -/
def memoNonEmpty (t : Transaction) : Bool :=
  match t.memo with
  | some m => m.data.length > 0
  | none => false

/-- Date distance in ms (ynab.ts lines 139-141); both dates are exact
integers, so the double arithmetic is exact. -/
def dateDiff (o : Order) (t : Transaction) : ℤ := |o.date - t.date|

/-- Amount distance (ynab.ts lines 142-144):
`Math.abs(Math.abs(order.amount) - Math.abs(transaction.amount))`. -/
def priceDiff (o : Order) (t : Transaction) : JsNum :=
  jsAbs (jsSub (jsAbs o.amount) (jsAbs (jsOfInt t.amount)))

/-- The tolerance test (ynab.ts lines 145-148), with the configured
tolerances (JS numbers read from the environment) multiplied out
inline as in the source. -/
def withinTolerance (dollarTol dateTol : JsNum) (dd : ℤ) (pd : JsNum) : Bool :=
  jsLe (jsOfInt dd) (jsMul (jsMul dateTol (jsOfInt 86400)) (jsOfInt 1000)) &&
  jsLe pd (jsMul dollarTol (jsOfInt 1000))

/-- The perfect-match test (ynab.ts line 157):
`dateDifference === 0 && priceDifference === 0`. -/
def isPerfect (dd : ℤ) (pd : JsNum) : Bool :=
  decide (dd = 0) && jsEq pd jsZero

/-- The inner transaction loop for one order (ynab.ts lines 134-158):
skip annotated transactions, collect tolerant candidates, and stop the
scan for this order after a perfect match (`continue orderLoop`). -/
def scanOrder (dollarTol dateTol : JsNum) (i : ℕ) (o : Order) : Cache → List MatchCand
  | [] => []
  | t :: ts =>
    if memoNonEmpty t then scanOrder dollarTol dateTol i o ts
    else
      let dd := dateDiff o t
      let pd := priceDiff o t
      let here : List MatchCand :=
        if withinTolerance dollarTol dateTol dd pd then
          [{ dateDifference := dd, priceDifference := pd, orderIndex := i, transactionId := t.id }]
        else []
      if isPerfect dd pd then here
      else here ++ scanOrder dollarTol dateTol i o ts

/-- Candidate generation over all orders (ynab.ts lines 133-159): every
order is scanned against the full cache, in input order. -/
def genCandidates (dollarTol dateTol : JsNum) (cache : Cache) (orders : List Order) :
    List MatchCand :=
  orders.enum.flatMap (fun p => scanOrder dollarTol dateTol p.1 p.2 cache)

/-- The sort comparator exactly as written (ynab.ts lines 161-176),
including the descending-order clause after the ascending checks. -/
def cmpSource (a b : MatchCand) : ℤ :=
  if a.dateDifference < b.dateDifference then -1
  else if a.dateDifference > b.dateDifference then 1
  else if jsLt a.priceDifference b.priceDifference then -1
  else if jsLt b.priceDifference a.priceDifference then 1
  else if jsLt b.priceDifference a.priceDifference then -1
  else if jsLt a.priceDifference b.priceDifference then 1
  else 0

/-- The comparator the spec describes: ascending by date difference,
then ascending by price difference, `0` on a full tie. -/
def cmpSpec (a b : MatchCand) : ℤ :=
  if a.dateDifference < b.dateDifference then -1
  else if a.dateDifference > b.dateDifference then 1
  else if jsLt a.priceDifference b.priceDifference then -1
  else if jsLt b.priceDifference a.priceDifference then 1
  else 0

/-- Stable insertion placing the new element before the first existing
element it does not compare after. -/
def insertSorted (m : MatchCand) : List MatchCand → List MatchCand
  | [] => [m]
  | y :: ys => if cmpSource m y ≤ 0 then m :: y :: ys else y :: insertSorted m ys

/-- Model of `Array.prototype.sort` (stable since ES2019) under the
source comparator: the candidates all carry finite (non-NaN) price
differences, on which `cmpSource` is a total preorder, so the stable
sorted permutation is unique and equals this stable insertion sort. -/
def sortMatches (l : List MatchCand) : List MatchCand := l.foldr insertSorted []

/-- The greedy exclusive-assignment loop (ynab.ts lines 180-192): accept
the best remaining candidate, discard every remaining candidate sharing
its transaction or its order index. -/
def greedy : List MatchCand → List MatchCand
  | [] => []
  | m :: rest =>
    m :: greedy (rest.filter
      (fun p => p.transactionId ≠ m.transactionId && p.orderIndex ≠ m.orderIndex))
termination_by l => l.length
decreasing_by
  simp only [List.length_cons]
  exact Nat.lt_succ_of_le (List.length_filter_le _ _)

/-- The accepted candidates of a `matchTransactions` run. -/
def acceptedMatches (dollarTol dateTol : JsNum) (cache : Cache) (orders : List Order) :
    List MatchCand :=
  if orders.isEmpty then []
  else greedy (sortMatches (genCandidates dollarTol dateTol cache orders))

/-- Full `matchTransactions` (ynab.ts lines 128-195). -/
def matchTransactions (dollarTol dateTol : JsNum) (cache : Cache) (orders : List Order) :
    List FinalMatch :=
  (acceptedMatches dollarTol dateTol cache orders).map
    (fun m => { transactionId := m.transactionId
                order := orders.getD m.orderIndex { date := 0, amount := jsZero, items := [] } })

/-- The method `matchTransactions` as a transformer of the instance
state (the cache): its body never assigns to `this.transactions`. -/
def matchTransactionsS (dollarTol dateTol : JsNum) (cache : Cache) (orders : List Order) :
    Cache × List FinalMatch :=
  (cache, matchTransactions dollarTol dateTol cache orders)

/-- The joined memo text `m.order.items.join(", ")` (ynab.ts line 202). -/
def joinItems (items : List String) : String := String.intercalate ", " items

/-- The in-place memo write `transaction.memo = memo` (ynab.ts line 204)
on the cached object with the given id. -/
def setMemo (cache : Cache) (id : String) (memo : String) : Cache :=
  cache.map (fun t => if t.id = id then { t with memo := some memo } else t)

/-- An update request sent to the ledger (ynab.ts lines 208-212). -/
structure UpdatePayload where
  id : String
  memo : String
  approved : Bool
deriving DecidableEq, Repr

/-- The sequence of in-place memo writes performed while the update
batch is mapped (ynab.ts lines 200-213). -/
def applyMemoWrites (cache : Cache) (ms : List FinalMatch) : Cache :=
  ms.foldl (fun c m => setMemo c m.transactionId (joinItems m.order.items)) cache

/-- Full `updateTransactions` (ynab.ts lines 197-215) as a state
transformer: it patches the memo of each matched cached transaction in
place while building the API payload batch. -/
def updateTransactions (cache : Cache) (ms : List FinalMatch) :
    Cache × List UpdatePayload :=
  if ms.isEmpty then (cache, [])
  else
    (applyMemoWrites cache ms,
     ms.map (fun m =>
       { id := m.transactionId, memo := joinItems m.order.items, approved := false }))

/-! ## Helper lemmas -/

theorem greedy_subset {x : MatchCand} : ∀ {l : List MatchCand}, x ∈ greedy l → x ∈ l
  | [], h => by simp [greedy] at h
  | m :: rest, h => by
    rw [greedy] at h
    rcases List.mem_cons.1 h with h1 | h2
    · exact h1 ▸ List.mem_cons_self _ _
    · have := greedy_subset h2
      exact List.mem_cons_of_mem _ (List.mem_of_mem_filter this)
termination_by l => l.length
decreasing_by
  simp only [List.length_cons]
  exact Nat.lt_succ_of_le (List.length_filter_le _ _)

theorem greedy_nodup : ∀ (l : List MatchCand),
    ((greedy l).map (fun m => m.transactionId)).Nodup ∧
    ((greedy l).map (fun m => m.orderIndex)).Nodup
  | [] => by simp [greedy]
  | m :: rest => by
    rw [greedy]
    have ih := greedy_nodup
      (rest.filter (fun p => p.transactionId ≠ m.transactionId && p.orderIndex ≠ m.orderIndex))
    simp only [List.map_cons, List.nodup_cons, List.mem_map]
    refine ⟨⟨?_, ih.1⟩, ⟨?_, ih.2⟩⟩
    · rintro ⟨x, hx, hid⟩
      have hmem := greedy_subset hx
      have hp := List.of_mem_filter hmem
      simp only [Bool.and_eq_true, decide_eq_true_eq, ne_eq] at hp
      exact hp.1 hid
    · rintro ⟨x, hx, hid⟩
      have hmem := greedy_subset hx
      have hp := List.of_mem_filter hmem
      simp only [Bool.and_eq_true, decide_eq_true_eq, ne_eq] at hp
      exact hp.2 hid
termination_by l => l.length
decreasing_by
  simp only [List.length_cons]
  exact Nat.lt_succ_of_le (List.length_filter_le _ _)

/-! ## Claim theorems -/

/-- Claim C1: the reconciler output is a one-to-one assignment — for every
tolerance configuration, transaction cache and order list, no two entries of
the `matchTransactions` output share a `transactionId`, and no two accepted
candidates share an order index (`recordIndex`). -/
theorem matchTransactions_one_to_one
    (dollarTol dateTol : JsNum) (cache : Cache) (orders : List Order) :
    ((matchTransactions dollarTol dateTol cache orders).map
      (fun fm => fm.transactionId)).Nodup ∧
    ((acceptedMatches dollarTol dateTol cache orders).map
      (fun m => m.orderIndex)).Nodup := by
  constructor
  · have : (matchTransactions dollarTol dateTol cache orders).map
        (fun fm => fm.transactionId)
        = (acceptedMatches dollarTol dateTol cache orders).map
          (fun m => m.transactionId) := by
      simp [matchTransactions, List.map_map, Function.comp]
    rw [this]
    unfold acceptedMatches
    split
    · simp
    · exact (greedy_nodup _).1
  · unfold acceptedMatches
    split
    · simp
    · exact (greedy_nodup _).2

/-- Claim C8: the source sort comparator is extensionally equal to the
ascending-by-date-then-ascending-by-price comparator; the descending
tie-break clause after the ascending checks is unreachable. -/
theorem cmpSource_eq_cmpSpec : ∀ a b : MatchCand, cmpSource a b = cmpSpec a b := by
  intro a b
  unfold cmpSource cmpSpec
  split_ifs <;> rfl

/-! ## Concrete fixtures -/

/-- A sample order-confirmation document: one table whose flattened text
contains "Total" and the amount `$42.10`, and product anchors yielding
the items `Widget A` and `Widget B`. -/
def sampleDoc : Doc :=
  { tables := [{ idAttr := "t1"
                 text := "Order Total $42.10 thank you"
                 tdTexts := []
                 rows := [] }]
    anchors := [{ href := "https://www.amazon.com/dp/B001", text := "Widget A" },
                { href := "https://www.amazon.com/gp/css/order", text := "View or edit order" },
                { href := "https://www.amazon.com/dp/B002", text := "Widget B" }] }

/-- A confirmation email whose sender header contains (but is not equal
to) the order-confirmation address, as real headers do. -/
def sampleEmail : Email :=
  { fromAddr := "Amazon.com <auto-confirm@amazon.com>"
    subject := "Your Amazon.com order of Widget A and Widget B"
    body := sampleDoc
    attributes := { date := some 1700000000000 } }

/-- The same document with total `$2.01`, an amount whose binary64
pipeline does not land on an exact integer of milliunits. -/
def centsEmail : Email :=
  { fromAddr := "Amazon.com <auto-confirm@amazon.com>"
    subject := "Your Amazon.com order"
    body := { tables := [{ idAttr := "t1"
                           text := "Order Total $2.01 thank you"
                           tdTexts := []
                           rows := [] }]
              anchors := [{ href := "https://www.amazon.com/dp/B003", text := "Widget C" }] }
    attributes := { date := some 1700000000000 } }

/-- An email from an unrelated sender. -/
def plainEmail : Email :=
  { fromAddr := "newsletter@example.com"
    subject := "Weekly digest"
    body := sampleDoc
    attributes := { date := some 1700000000000 } }

set_option maxRecDepth 100000 in
/-- Claim C2 (amended) : on the sample fixture the extractor returns the
items `Widget A`, `Widget B` and an amount that is exactly the integer
`-42100` milliunits — for the value `$42.10` the double rounding of
`parseFloat` and of the `* 1000` product happens to be exact. -/
theorem scanEmail_fixture :
    (scanEmail sampleEmail).map (fun o => (jsEqInt o.amount (-42100), o.items))
      = some (true, ["Widget A", "Widget B"]) := by decide

set_option maxRecDepth 100000 in
/-- Claim C2 counterexample: amount arithmetic is IEEE-754 double
arithmetic, not exact integer milliunits — for a confirmation total of
`$2.01` the extracted amount is not an integer number of milliunits at
all (it is `-8840073487319039/2^42`, not `-2010`). -/
theorem scanEmail_cents_not_integer :
    (scanEmail centsEmail).map (fun o => (jsIsInt o.amount, jsEqInt o.amount (-2010)))
      = some (false, false) := by decide

set_option maxRecDepth 100000 in
/-- Claim C3 counterexample: a message whose sender differs from (but
contains) the order-confirmation address is not skipped — the sender
check is a substring test, not an exact match. -/
theorem scanEmail_inexact_sender_extracts :
    sampleEmail.fromAddr ≠ "auto-confirm@amazon.com" ∧
    scanEmail sampleEmail ≠ none := by decide

/-- Claim C3 (amended): a message whose sender does not contain the
order-confirmation address as a substring always yields a skip, with
the rejection decided before the document is inspected (the outcome is
independent of body and attributes). -/
theorem scanEmail_sender_filter (email : Email) (h : isAmazonEmail email = false) :
    scanEmailRun email =
      (none, ["Ignoring... not an Amazon order email (subject or body mismatch)"]) ∧
    ∀ doc attrs, scanEmail { email with body := doc, attributes := attrs } = none := by
  constructor
  · simp [scanEmailRun, h]
  · intro doc attrs
    have h2 : isAmazonEmail { email with body := doc, attributes := attrs } = false := h
    simp [scanEmail, scanEmailRun, h2]

set_option maxRecDepth 100000 in
theorem scanEmail_sender_filter_witness :
    isAmazonEmail plainEmail = false ∧
    (scanEmailRun plainEmail =
      (none, ["Ignoring... not an Amazon order email (subject or body mismatch)"]) ∧
    ∀ doc attrs, scanEmail { plainEmail with body := doc, attributes := attrs } = none) :=
  ⟨by decide, scanEmail_sender_filter plainEmail (by decide)⟩

/-- A deleted transaction that passes the sync filter and is not yet in
the local cache. -/
def deletedTx : Transaction :=
  { id := "d1", date := 0, amount := -42100
    payee := some "Amazon.com", memo := none, deleted := true }

/-- Claim C4 (code bug): a fetched transaction marked deleted that is
not already cached falls into the `else` branch of the sync loop and is
added to the cache, so the cache can contain deleted transactions. -/
theorem fetchTransactions_caches_deleted :
    deletedTx.deleted = true ∧ fetchTransactions [] [deletedTx] = [deletedTx] := by decide

/-- A clean cached transaction used in concrete scenarios. -/
def cachedTx : Transaction :=
  { id := "tA", date := 0, amount := -42100
    payee := some "Amazon.com", memo := none, deleted := false }

/-- A concrete extracted purchase record matching `cachedTx`. -/
def widgetOrder : Order :=
  { date := 0, amount := some (intF (-42100)), items := ["Widget A"] }

/-- Claim C9 counterexample: `updateTransactions` mutates the in-memory
transaction cache directly — preparing the update batch assigns the
joined item list to the cached transaction object memo field. -/
theorem updateTransactions_mutates_cache :
    (updateTransactions [cachedTx] [{ transactionId := "tA", order := widgetOrder }]).1
      ≠ [cachedTx] := by decide

theorem setMemo_fields {u : Transaction} {c : Cache} {id memo : String}
    (h : u ∈ setMemo c id memo) :
    ∃ t ∈ c, u.id = t.id ∧ u.date = t.date ∧ u.amount = t.amount ∧
      u.payee = t.payee ∧ u.deleted = t.deleted := by
  unfold setMemo at h
  obtain ⟨t, ht, rfl⟩ := List.mem_map.1 h
  refine ⟨t, ht, ?_⟩
  split <;> simp

theorem setMemo_ids (c : Cache) (id memo : String) :
    (setMemo c id memo).map (fun t => t.id) = c.map (fun t => t.id) := by
  induction c with
  | nil => rfl
  | cons t ts ih =>
    simp only [setMemo, List.map_cons] at ih ⊢
    rw [ih]
    split <;> rfl

theorem applyMemoWrites_ids :
    ∀ (ms : List FinalMatch) (c : Cache),
      (applyMemoWrites c ms).map (fun t => t.id) = c.map (fun t => t.id) := by
  intro ms
  induction ms with
  | nil => intro c; rfl
  | cons m rest ih =>
    intro c
    have : applyMemoWrites c (m :: rest)
        = applyMemoWrites (setMemo c m.transactionId (joinItems m.order.items)) rest := rfl
    rw [this, ih, setMemo_ids]

theorem applyMemoWrites_fields :
    ∀ (ms : List FinalMatch) (c : Cache) (u : Transaction),
      u ∈ applyMemoWrites c ms →
      ∃ t ∈ c, u.id = t.id ∧ u.date = t.date ∧ u.amount = t.amount ∧
        u.payee = t.payee ∧ u.deleted = t.deleted := by
  intro ms
  induction ms with
  | nil =>
    intro c u h
    exact ⟨u, h, rfl, rfl, rfl, rfl, rfl⟩
  | cons m rest ih =>
    intro c u h
    have h1 : u ∈ applyMemoWrites (setMemo c m.transactionId (joinItems m.order.items)) rest := h
    obtain ⟨v, hv, e1, e2, e3, e4, e5⟩ := ih _ u h1
    obtain ⟨t, ht, f1, f2, f3, f4, f5⟩ := setMemo_fields hv
    exact ⟨t, ht, e1.trans f1, e2.trans f2, e3.trans f3, e4.trans f4, e5.trans f5⟩

/-- Claim C9 (amended): `matchTransactions` never touches the cache, and
`updateTransactions` changes only memo fields of cached transactions —
it adds or removes no transaction and alters no other field — but it
does write the annotations into the in-memory cache itself, in addition
to sending them to the external ledger. -/
theorem cache_mutation_profile (dollarTol dateTol : JsNum) (cache : Cache)
    (orders : List Order) (ms : List FinalMatch) :
    (matchTransactionsS dollarTol dateTol cache orders).1 = cache ∧
    (updateTransactions cache ms).1.map (fun t => t.id) = cache.map (fun t => t.id) ∧
    ∀ u ∈ (updateTransactions cache ms).1,
      ∃ t ∈ cache, u.id = t.id ∧ u.date = t.date ∧ u.amount = t.amount ∧
        u.payee = t.payee ∧ u.deleted = t.deleted := by
  refine ⟨rfl, ?_, ?_⟩
  · unfold updateTransactions
    split
    · rfl
    · exact applyMemoWrites_ids ms cache
  · intro u hu
    unfold updateTransactions at hu
    split at hu
    · exact ⟨u, hu, rfl, rfl, rfl, rfl, rfl⟩
    · exact applyMemoWrites_fields ms cache u hu

theorem cache_mutation_profile_witness :
    (matchTransactionsS (some ⟨1, 2⟩) (jsOfInt 4) [cachedTx] [widgetOrder]).1 = [cachedTx] ∧
    (updateTransactions [cachedTx]
        [{ transactionId := "tA", order := widgetOrder }]).1.map (fun t => t.id)
      = [cachedTx].map (fun t => t.id) ∧
    ∀ u ∈ (updateTransactions [cachedTx]
        [{ transactionId := "tA", order := widgetOrder }]).1,
      ∃ t ∈ [cachedTx], u.id = t.id ∧ u.date = t.date ∧ u.amount = t.amount ∧
        u.payee = t.payee ∧ u.deleted = t.deleted :=
  cache_mutation_profile (some ⟨1, 2⟩) (jsOfInt 4) [cachedTx] [widgetOrder]
    [{ transactionId := "tA", order := widgetOrder }]

theorem fetchStep_mem {x t : Transaction} {c : Cache} (h : x ∈ fetchStep c t) :
    x ∈ c ∨ x = t := by
  unfold fetchStep cacheInsert cacheDelete at h
  split at h
  · exact Or.inl (List.mem_of_mem_filter h)
  · split at h
    · obtain ⟨u, hu, hx⟩ := List.mem_map.1 h
      by_cases hid : u.id = t.id
      · rw [if_pos hid] at hx
        exact Or.inr hx.symm
      · rw [if_neg hid] at hx
        exact Or.inl (hx ▸ hu)
    · rcases List.mem_append.1 h with h1 | h2
      · exact Or.inl h1
      · simp only [List.mem_singleton] at h2
        exact Or.inr h2

theorem foldl_fetchStep_mem :
    ∀ (l : List Transaction) (c : Cache) (x : Transaction),
      x ∈ l.foldl fetchStep c → x ∈ c ∨ x ∈ l := by
  intro l
  induction l with
  | nil => intro c x h; exact Or.inl h
  | cons t ts ih =>
    intro c x h
    rcases ih (fetchStep c t) x h with h1 | h2
    · rcases fetchStep_mem h1 with h3 | h4
      · exact Or.inl h3
      · exact Or.inr (h4 ▸ List.mem_cons_self _ _)
    · exact Or.inr (List.mem_cons_of_mem _ h2)

/-- Claim C10: every transaction the sync run adds to the local cache
passed the sync filter — its payee contains "amazon" case-insensitively
and its memo was empty or absent at caching time; transactions failing
the filter are never cached. -/
theorem fetchTransactions_filter_invariant (cache : Cache) (resp : List Transaction) :
    ∀ t ∈ fetchTransactions cache resp, t ∈ cache ∨ syncFilter t = true := by
  intro t ht
  unfold fetchTransactions at ht
  rcases foldl_fetchStep_mem _ _ _ ht with h | h
  · exact Or.inl h
  · exact Or.inr (List.of_mem_filter h)

theorem fetchTransactions_filter_invariant_witness :
    cachedTx ∈ fetchTransactions [] [cachedTx] ∧
    (cachedTx ∈ ([] : Cache) ∨ syncFilter cachedTx = true) :=
  ⟨by decide, fetchTransactions_filter_invariant [] [cachedTx] cachedTx (by decide)⟩

theorem mem_insertSorted {x m : MatchCand} :
    ∀ {l : List MatchCand}, x ∈ insertSorted m l → x = m ∨ x ∈ l := by
  intro l
  induction l with
  | nil =>
    intro h
    simp only [insertSorted, List.mem_singleton] at h
    exact Or.inl h
  | cons y ys ih =>
    intro h
    rw [insertSorted] at h
    split at h
    · rcases List.mem_cons.1 h with h1 | h2
      · exact Or.inl h1
      · exact Or.inr h2
    · rcases List.mem_cons.1 h with h1 | h2
      · exact Or.inr (h1 ▸ List.mem_cons_self _ _)
      · rcases ih h2 with h3 | h4
        · exact Or.inl h3
        · exact Or.inr (List.mem_cons_of_mem _ h4)

theorem mem_sortMatches {x : MatchCand} :
    ∀ {l : List MatchCand}, x ∈ sortMatches l → x ∈ l := by
  intro l
  induction l with
  | nil => intro h; simp [sortMatches] at h
  | cons a as ih =>
    intro h
    have h1 : x ∈ insertSorted a (sortMatches as) := h
    rcases mem_insertSorted h1 with h2 | h3
    · exact h2 ▸ List.mem_cons_self _ _
    · exact List.mem_cons_of_mem _ (ih h3)

theorem mem_scanOrder {m : MatchCand} (dollarTol dateTol : JsNum) (i : ℕ) (o : Order) :
    ∀ (ts : Cache), m ∈ scanOrder dollarTol dateTol i o ts →
      ∃ t ∈ ts, m.transactionId = t.id ∧ memoNonEmpty t = false ∧ m.orderIndex = i := by
  intro ts
  induction ts with
  | nil => intro h; simp [scanOrder] at h
  | cons t ts ih =>
    intro h
    rw [scanOrder] at h
    split at h
    · obtain ⟨t', ht', h'⟩ := ih h
      exact ⟨t', List.mem_cons_of_mem _ ht', h'⟩
    next hmemo =>
      have hmemo' : memoNonEmpty t = false := Bool.not_eq_true _ ▸ eq_false_of_ne_true hmemo
      dsimp only at h
      split at h
      · split at h
        · simp only [List.mem_singleton] at h
          exact ⟨t, List.mem_cons_self _ _, by rw [h], hmemo', by rw [h]⟩
        · simp at h
      · rcases List.mem_append.1 h with h1 | h2
        · split at h1
          · simp only [List.mem_singleton] at h1
            exact ⟨t, List.mem_cons_self _ _, by rw [h1], hmemo', by rw [h1]⟩
          · simp at h1
        · obtain ⟨t', ht', h'⟩ := ih h2
          exact ⟨t', List.mem_cons_of_mem _ ht', h'⟩

/-- Claim C5: no accepted match refers to an annotated transaction —
candidate generation scans only transactions whose memo is empty, so a
transaction with a non-empty memo can never appear in the output of
`matchTransactions`. -/
theorem matchTransactions_skips_annotated (dollarTol dateTol : JsNum) (cache : Cache)
    (orders : List Order) (hnd : (cache.map (fun t => t.id)).Nodup) :
    ∀ fm ∈ matchTransactions dollarTol dateTol cache orders,
      ∀ tr ∈ cache, tr.id = fm.transactionId → memoNonEmpty tr = false := by
  intro fm hfm tr htr hid
  unfold matchTransactions at hfm
  obtain ⟨m, hm, rfl⟩ := List.mem_map.1 hfm
  unfold acceptedMatches at hm
  split at hm
  · simp at hm
  · have h1 := greedy_subset hm
    have h2 := mem_sortMatches h1
    unfold genCandidates at h2
    obtain ⟨p, _, hm2⟩ := List.mem_flatMap.1 h2
    obtain ⟨t, ht, htid, hmemo, _⟩ := mem_scanOrder _ _ _ _ _ hm2
    have : tr = t := List.inj_on_of_nodup_map hnd htr ht (by rw [hid, htid])
    rw [this]
    exact hmemo

/-- An already-annotated cached transaction. -/
def annotatedTx : Transaction :=
  { id := "tM", date := 0, amount := -42100
    payee := some "Amazon.com", memo := some "already matched", deleted := false }

set_option maxRecDepth 100000 in
theorem matchTransactions_skips_annotated_witness :
    (([annotatedTx, cachedTx] : Cache).map (fun t => t.id)).Nodup ∧
    ∀ fm ∈ matchTransactions (some ⟨1, 2⟩) (jsOfInt 4) [annotatedTx, cachedTx] [widgetOrder],
      ∀ tr ∈ ([annotatedTx, cachedTx] : Cache),
        tr.id = fm.transactionId → memoNonEmpty tr = false :=
  ⟨by decide,
   matchTransactions_skips_annotated (some ⟨1, 2⟩) (jsOfInt 4)
     [annotatedTx, cachedTx] [widgetOrder] (by decide)⟩

/-- Claim C6: a perfect match (zero date and price difference) stops the
transaction scan for that record — no candidate for the record comes
from any later transaction — while the per-record scans are over the
full cache, so the perfectly matched transaction still contributes the
candidates of every other record; conflicts are only resolved in the
later global greedy phase. -/
theorem perfect_match_cut_and_global_candidates :
    (∀ (dollarTol dateTol : JsNum) (i : ℕ) (o : Order) (pre post : Cache) (t : Transaction),
      memoNonEmpty t = false →
      isPerfect (dateDiff o t) (priceDiff o t) = true →
      scanOrder dollarTol dateTol i o (pre ++ t :: post) =
        scanOrder dollarTol dateTol i o (pre ++ [t])) ∧
    (∀ (dollarTol dateTol : JsNum) (cache : Cache) (orders : List Order)
      (i' : ℕ) (o' : Order) (c : MatchCand),
      (i', o') ∈ orders.enum → c ∈ scanOrder dollarTol dateTol i' o' cache →
      c ∈ genCandidates dollarTol dateTol cache orders) := by
  constructor
  · intro dollarTol dateTol i o pre post t hmemo hperf
    induction pre with
    | nil =>
      simp only [List.nil_append]
      rw [scanOrder, scanOrder]
      simp [hmemo, hperf]
    | cons y pre ih =>
      simp only [List.cons_append]
      rw [scanOrder, scanOrder]
      by_cases hy : memoNonEmpty y
      · simp only [hy, if_true]
        exact ih
      · simp only [hy, if_false, Bool.false_eq_true]
        split
        · rfl
        · rw [ih]
  · intro dollarTol dateTol cache orders i' o' c hio hc
    exact List.mem_flatMap.2 ⟨(i', o'), hio, hc⟩

/-- A second extracted purchase record, within tolerance of `cachedTx`
but not a perfect match for it. -/
def widgetOrder2 : Order :=
  { date := 0, amount := some (intF (-42050)), items := ["Widget B"] }

/-- Another clean cached transaction, far from both orders. -/
def otherTx : Transaction :=
  { id := "tB", date := 0, amount := -10000
    payee := some "Amazon.com", memo := none, deleted := false }

set_option maxRecDepth 100000 in
theorem perfect_match_cut_and_global_candidates_witness :
    (scanOrder (some ⟨1, 2⟩) (jsOfInt 4) 0 widgetOrder ([] ++ cachedTx :: [otherTx])
      = scanOrder (some ⟨1, 2⟩) (jsOfInt 4) 0 widgetOrder ([] ++ [cachedTx])) ∧
    ({ dateDifference := dateDiff widgetOrder2 cachedTx
       priceDifference := priceDiff widgetOrder2 cachedTx
       orderIndex := 1, transactionId := "tA" } : MatchCand)
      ∈ genCandidates (some ⟨1, 2⟩) (jsOfInt 4) [cachedTx] [widgetOrder, widgetOrder2] :=
  ⟨perfect_match_cut_and_global_candidates.1 (some ⟨1, 2⟩) (jsOfInt 4) 0 widgetOrder
      [] [otherTx] cachedTx (by decide) (by decide),
   perfect_match_cut_and_global_candidates.2 (some ⟨1, 2⟩) (jsOfInt 4) [cachedTx]
      [widgetOrder, widgetOrder2] 1 widgetOrder2 _ (by decide) (by decide)⟩

/-- Claim C7: `scanEmail` never propagates a parse exception — when the
try-block raises, the catch turns the outcome into a skip (no record)
and logs the failure together with the subject of the offending email. -/
theorem scanEmail_catches (email : Email) (err : String)
    (ha : isAmazonEmail email = true)
    (h : scanEmailBody (loadDoc email.body) email.attributes = Except.error err) :
    (scanEmailRun email).1 = none ∧
    ("This failed on email with subject: " ++ email.subject) ∈ (scanEmailRun email).2 := by
  simp [scanEmailRun, ha, h]

/-- A confirmation email whose IMAP attributes lack a date, making the
date access in the try-block raise. -/
def noDateEmail : Email :=
  { fromAddr := "Amazon.com <auto-confirm@amazon.com>"
    subject := "Order confirmation"
    body := sampleDoc
    attributes := { date := none } }

set_option maxRecDepth 100000 in
theorem scanEmail_catches_witness :
    isAmazonEmail noDateEmail = true ∧
    ((scanEmailRun noDateEmail).1 = none ∧
      ("This failed on email with subject: " ++ noDateEmail.subject)
        ∈ (scanEmailRun noDateEmail).2) :=
  ⟨by decide,
   scanEmail_catches noDateEmail "TypeError: attributes.date is undefined"
     (by decide) (by rfl)⟩

end AmazonSync
